import Mathlib

/-!
Verification of `privacy_diary_terminal.py` (Isma3ilovitch/privacy_diary).

Shallow embedding of the program: bytes are modelled as `List Nat`,
Python strings as Lean `String` (or `List Char` where character-level
operations such as `str.strip()` / `str.upper()` must be reasoned about),
the insertion-ordered Python `dict` mapping timestamps to entry texts as an
association list with distinct keys, and the filesystem cells the program
touches (key file, entries file) as explicit `Option` state threaded through
the functions.  Ambient effects (the wall clock in `datetime.now()`, the
outcome of a file write, the Ollama server) become explicit parameters.
-/

/-- Bytes, as produced by Python `str.encode()` and file reads. -/
abbrev Bytes := List Nat

/-- Modelled from the spec: the external `cryptography.fernet.Fernet` cipher
is not part of this repository; per its contract it is a symmetric
authenticated cipher whose decryption inverts encryption (and fails, i.e.
raises, on tokens it did not produce — hence the `Option`). -/
structure Fernet where
  encB : Bytes → Bytes
  decB : Bytes → Option Bytes
  decB_encB : ∀ b, decB (encB b) = some b

/-- Python `str.encode()`: the string as a list of code points (byte-level
UTF-8 framing is irrelevant to the claims; what matters is injectivity with
`strDecode` as left inverse, which UTF-8 provides). -/
def strEncode (s : String) : Bytes := s.data.map Char.toNat

/-- Python `bytes.decode()`, inverse of `strEncode`. -/
def strDecode (l : Bytes) : String := ⟨l.map Char.ofNat⟩

/-- The encrypt method of EncryptionManager: `self.cipher.encrypt(data.encode())`. -/
def EncryptionManager.encrypt (F : Fernet) (data : String) : Bytes :=
  F.encB (strEncode data)

/-- The decrypt method of EncryptionManager: `self.cipher.decrypt(data).decode()`;
`none` models the `InvalidToken` exception escaping. -/
def EncryptionManager.decrypt (F : Fernet) (data : Bytes) : Option String :=
  (F.decB data).map strDecode

theorem strDecode_strEncode (s : String) : strDecode (strEncode s) = s := by
  cases s with
  | mk data =>
    simp only [strDecode, strEncode, List.map_map]
    congr 1
    induction data with
    | nil => rfl
    | cons c cs ih => simp [ih, Char.ofNat_toNat]

/-- C1: decrypting the result of encrypting any string with the same
EncryptionManager yields that string exactly. -/
theorem EncryptionManager.decrypt_encrypt (F : Fernet) (s : String) :
    EncryptionManager.decrypt F (EncryptionManager.encrypt F s) = some s := by
  simp [EncryptionManager.decrypt, EncryptionManager.encrypt, F.decB_encB,
    strDecode_strEncode]

/-- A concrete cipher satisfying the Fernet contract, used to instantiate the
theorems at concrete inputs. -/
def idFernet : Fernet := ⟨id, some, fun _ => rfl⟩

/-- The in-memory `self.entries` dict of DiaryStorage: an insertion-ordered
mapping from ISO-8601 timestamp strings to entry texts. -/
abbrev Entries := List (String × String)

/-- Python dict lookup `d[k]` (as a partial query). -/
def lookupEntry (m : Entries) (k : String) : Option String :=
  (m.find? (fun p => p.1 == k)).map Prod.snd

/-- Python dict assignment `self.entries[timestamp] = content` on the
insertion-ordered mapping: replace the value in place when the key is
present, append at the end otherwise. -/
def dictInsert : Entries → String → String → Entries
  | [], k, v => [(k, v)]
  | p :: rest, k, v => if p.1 == k then (k, v) :: rest else p :: dictInsert rest k v

/-- DiaryStorage._load_entries.  The entries file on disk is `file`
(`none` = absent); `parseJson` is the external `json.loads`, `none`
modelling the raised parse exception.  Any exception inside the `try`
block is caught, printed, and an empty dict returned. -/
def DiaryStorage.load_entries (F : Fernet) (parseJson : String → Option Entries)
    (file : Option Bytes) : Entries :=
  match file with
  | none => []
  | some encrypted_data =>
    if encrypted_data = [] then []
    else
      match EncryptionManager.decrypt F encrypted_data with
      | none => []
      | some decrypted_json =>
        match parseJson decrypted_json with
        | none => []
        | some m => m

/-- DiaryStorage.save_entry.  `timestamp` stands for the ambient
`datetime.now().isoformat()`, `dumpsJson` for the external
`json.dumps(..., indent=2)`, and `writeOk` for whether the file write
raises.  The dict mutation `self.entries[timestamp] = content` happens
before the failure point, so the updated dict is returned in either case;
on failure the function returns `False` and the file is unchanged.
Result: (return value, new in-memory entries, new file contents). -/
def DiaryStorage.save_entry (F : Fernet) (dumpsJson : Entries → String)
    (timestamp content : String) (entries : Entries) (file : Option Bytes)
    (writeOk : Bool) : Bool × Entries × Option Bytes :=
  let entries' := dictInsert entries timestamp content
  if writeOk then
    (true, entries', some (EncryptionManager.encrypt F (dumpsJson entries')))
  else
    (false, entries', file)

/-- State of the key file: contents (`none` = absent) and permission bits. -/
structure KeyFileState where
  contents : Option Bytes
  perm : Option Nat

/-- EncryptionManager._load_or_create_key.  `freshKey` stands for the ambient
`Fernet.generate_key()`.  Result: (returned key, resulting key-file state). -/
def EncryptionManager.load_or_create_key (st : KeyFileState) (freshKey : Bytes) :
    Bytes × KeyFileState :=
  match st.contents with
  | some k => (k, st)
  | none => (freshKey, ⟨some freshKey, some 0o600⟩)

theorem DiaryStorage.save_entry_entries (F : Fernet) (dumpsJson : Entries → String)
    (timestamp content : String) (entries : Entries) (file : Option Bytes)
    (writeOk : Bool) :
    (DiaryStorage.save_entry F dumpsJson timestamp content entries file writeOk).2.1
      = dictInsert entries timestamp content := by
  unfold DiaryStorage.save_entry
  split <;> rfl

theorem lookupEntry_dictInsert_self (m : Entries) (k v : String) :
    lookupEntry (dictInsert m k v) k = some v := by
  induction m with
  | nil => simp [dictInsert, lookupEntry, List.find?]
  | cons p rest ih =>
    by_cases h : p.1 == k
    · simp [dictInsert, h, lookupEntry, List.find?]
    · simpa [dictInsert, h, lookupEntry, List.find?] using ih

theorem lookupEntry_dictInsert_ne (m : Entries) (k v k' : String) (h : k' ≠ k) :
    lookupEntry (dictInsert m k v) k' = lookupEntry m k' := by
  have hk : (k == k') = false := by
    simp only [beq_eq_false_iff_ne]
    exact fun e => h e.symm
  induction m with
  | nil => simp [dictInsert, lookupEntry, List.find?, hk]
  | cons p rest ih =>
    by_cases hp : p.1 == k
    · have hpk : p.1 = k := by simpa using hp
      simp [dictInsert, hp, lookupEntry, List.find?, hk, hpk]
    · by_cases hp' : p.1 == k'
      · simp [dictInsert, hp, lookupEntry, List.find?, hp']
      · simpa [dictInsert, hp, lookupEntry, List.find?, hp'] using ih

theorem dictInsert_dictInsert (m : Entries) (k v1 v2 : String) :
    dictInsert (dictInsert m k v1) k v2 = dictInsert m k v2 := by
  induction m with
  | nil => simp [dictInsert]
  | cons p rest ih =>
    by_cases h : p.1 == k
    · simp [dictInsert, h]
    · simp [dictInsert, h, ih]

/-- C3: _load_entries returns the empty mapping when the store file is absent,
when the file is present but empty, and on any decryption or JSON-parse
failure; otherwise it returns the mapping decoded from the decrypted file
contents. -/
theorem DiaryStorage.load_entries_spec (F : Fernet)
    (parseJson : String → Option Entries) :
    DiaryStorage.load_entries F parseJson none = []
    ∧ DiaryStorage.load_entries F parseJson (some []) = []
    ∧ (∀ b, EncryptionManager.decrypt F b = none →
        DiaryStorage.load_entries F parseJson (some b) = [])
    ∧ (∀ b s, EncryptionManager.decrypt F b = some s → parseJson s = none →
        DiaryStorage.load_entries F parseJson (some b) = [])
    ∧ (∀ b s m, b ≠ [] → EncryptionManager.decrypt F b = some s →
        parseJson s = some m →
        DiaryStorage.load_entries F parseJson (some b) = m) := by
  refine ⟨rfl, rfl, ?_, ?_, ?_⟩
  · intro b hdec
    by_cases hb : b = [] <;> simp [DiaryStorage.load_entries, hb, hdec]
  · intro b s hdec hparse
    by_cases hb : b = [] <;> simp [DiaryStorage.load_entries, hb, hdec, hparse]
  · intro b s m hb hdec hparse
    simp [DiaryStorage.load_entries, hb, hdec, hparse]

theorem DiaryStorage.load_entries_spec_witness :
    DiaryStorage.load_entries idFernet (fun _ => some [("t", "x")]) (some [65])
      = [("t", "x")] :=
  (DiaryStorage.load_entries_spec idFernet (fun _ => some [("t", "x")])).2.2.2.2
    [65] (strDecode [65]) [("t", "x")] (by decide) rfl rfl

/-- C4: if the key file exists, _load_or_create_key returns exactly the bytes
stored in it with no validation and no state change (so a key generated on a
first run is reused byte-identically on every later run); if it does not
exist, the fresh random key is returned, written to the key file, and the
file permissions are set to owner read/write only (0o600). -/
theorem EncryptionManager.load_or_create_key_spec (st : KeyFileState)
    (freshKey : Bytes) :
    (∀ k, st.contents = some k →
      EncryptionManager.load_or_create_key st freshKey = (k, st))
    ∧ (st.contents = none →
      EncryptionManager.load_or_create_key st freshKey
        = (freshKey, ⟨some freshKey, some 0o600⟩)
      ∧ ∀ freshKey2,
        (EncryptionManager.load_or_create_key ⟨some freshKey, some 0o600⟩
          freshKey2).1 = freshKey) := by
  obtain ⟨c, p⟩ := st
  cases c with
  | none =>
    refine ⟨fun k hk => ?_, fun _ => ⟨rfl, fun _ => rfl⟩⟩
    cases hk
  | some k0 =>
    refine ⟨fun k hk => ?_, fun hn => ?_⟩
    · cases hk
      rfl
    · cases hn

theorem EncryptionManager.load_or_create_key_spec_witness :
    EncryptionManager.load_or_create_key ⟨none, none⟩ [7]
      = ([7], ⟨some [7], some 0o600⟩)
    ∧ (EncryptionManager.load_or_create_key ⟨some [7], some 0o600⟩ [9]).1 = [7] :=
  let h := (EncryptionManager.load_or_create_key_spec ⟨none, none⟩ [7]).2 rfl
  ⟨h.1, h.2 [9]⟩

/-- C5: when two successive save_entry calls compute equal timestamps, the
second insert overwrites the first under the shared key — the resulting
mapping is as if only the later call had happened, and the lookup at that
timestamp yields the later text. -/
theorem DiaryStorage.save_entry_collision_overwrite (F : Fernet)
    (dumpsJson : Entries → String) (timestamp t1 t2 : String)
    (entries : Entries) (file : Option Bytes) (w1 w2 : Bool) :
    (DiaryStorage.save_entry F dumpsJson timestamp t2
        (DiaryStorage.save_entry F dumpsJson timestamp t1 entries file w1).2.1
        (DiaryStorage.save_entry F dumpsJson timestamp t1 entries file w1).2.2
        w2).2.1
      = dictInsert entries timestamp t2
    ∧ lookupEntry
        (DiaryStorage.save_entry F dumpsJson timestamp t2
          (DiaryStorage.save_entry F dumpsJson timestamp t1 entries file w1).2.1
          (DiaryStorage.save_entry F dumpsJson timestamp t1 entries file w1).2.2
          w2).2.1 timestamp
      = some t2 := by
  rw [DiaryStorage.save_entry_entries, DiaryStorage.save_entry_entries,
    dictInsert_dictInsert]
  exact ⟨rfl, lookupEntry_dictInsert_self ..⟩

/-- C9: when the file write fails, save_entry returns False to the caller,
the store file is unchanged, yet the new entry is already present in the
in-memory mapping — the in-memory state is not rolled back. -/
theorem DiaryStorage.save_entry_failure_keeps_memory (F : Fernet)
    (dumpsJson : Entries → String) (timestamp content : String)
    (entries : Entries) (file : Option Bytes) :
    DiaryStorage.save_entry F dumpsJson timestamp content entries file false
      = (false, dictInsert entries timestamp content, file)
    ∧ lookupEntry (dictInsert entries timestamp content) timestamp
      = some content :=
  ⟨rfl, lookupEntry_dictInsert_self ..⟩

/-- C10: save_entry never removes or alters an entry under a different
timestamp key — lookups at any other key are unchanged in the in-memory
mapping — and on success the file holds the encryption of the serialized
updated mapping. -/
theorem DiaryStorage.save_entry_frame (F : Fernet)
    (dumpsJson : Entries → String) (timestamp content : String)
    (entries : Entries) (file : Option Bytes) (writeOk : Bool)
    (k : String) (h : k ≠ timestamp) :
    lookupEntry
      (DiaryStorage.save_entry F dumpsJson timestamp content entries file
        writeOk).2.1 k
      = lookupEntry entries k
    ∧ (writeOk = true →
      (DiaryStorage.save_entry F dumpsJson timestamp content entries file
        writeOk).2.2
        = some (EncryptionManager.encrypt F
            (dumpsJson (dictInsert entries timestamp content)))) := by
  constructor
  · rw [DiaryStorage.save_entry_entries]
    exact lookupEntry_dictInsert_ne _ _ _ _ h
  · intro hw
    subst hw
    rfl

theorem DiaryStorage.save_entry_frame_witness :
    lookupEntry
      (DiaryStorage.save_entry idFernet (fun _ => "j") "t" "c" [("a", "b")]
        none true).2.1 ("a")
      = lookupEntry [("a", "b")] ("a")
    ∧ (true = true →
      (DiaryStorage.save_entry idFernet (fun _ => "j") "t" "c" [("a", "b")]
        none true).2.2
        = some (EncryptionManager.encrypt idFernet
            ((fun _ => "j") (dictInsert [("a", "b")] "t" "c")))) :=
  DiaryStorage.save_entry_frame idFernet (fun _ => "j") "t" "c" [("a", "b")]
    none true ("a") (by decide)

/-- The comparison realized by Python `sorted(self.entries.items(), reverse=True)`:
element a precedes (or ties with) element b exactly when b ≤ a in the
lexicographic order on (timestamp, text) tuples. -/
def entryDescLe (a b : String × String) : Bool :=
  decide (b.1 < a.1 ∨ (b.1 = a.1 ∧ b.2 ≤ a.2))

/-- DiaryStorage.get_recent_entries:
`sorted(self.entries.items(), reverse=True)[:limit]`. -/
def DiaryStorage.get_recent_entries (entries : Entries) (limit : Nat) : Entries :=
  (entries.mergeSort entryDescLe).take limit

theorem entryDescLe_trans (a b c : String × String) :
    entryDescLe a b → entryDescLe b c → entryDescLe a c := by
  simp only [entryDescLe, decide_eq_true_eq]
  rintro (hab | ⟨hab1, hab2⟩) (hbc | ⟨hbc1, hbc2⟩)
  · exact Or.inl (lt_trans hbc hab)
  · exact Or.inl (lt_of_le_of_lt (le_of_eq hbc1) hab)
  · exact Or.inl (lt_of_lt_of_le hbc (le_of_eq hab1))
  · exact Or.inr ⟨hbc1.trans hab1, le_trans hbc2 hab2⟩

theorem entryDescLe_total (a b : String × String) :
    entryDescLe a b || entryDescLe b a := by
  simp only [entryDescLe, Bool.or_eq_true, decide_eq_true_eq]
  rcases lt_trichotomy a.1 b.1 with h | h | h
  · exact Or.inr (Or.inl h)
  · rcases le_total a.2 b.2 with h2 | h2
    · exact Or.inr (Or.inr ⟨h, h2⟩)
    · exact Or.inl (Or.inr ⟨h.symm, h2⟩)
  · exact Or.inl (Or.inl h)

/-- C2: on a store whose timestamp keys are distinct (the dict invariant),
get_recent_entries returns entries in strictly descending timestamp order,
its length is min(limit, number of entries), and on a store with zero
entries it returns the empty list. -/
theorem DiaryStorage.get_recent_entries_spec (entries : Entries) (limit : Nat)
    (hkeys : entries.Pairwise (fun a b => a.1 ≠ b.1)) :
    (DiaryStorage.get_recent_entries entries limit).Pairwise
      (fun a b => b.1 < a.1)
    ∧ (DiaryStorage.get_recent_entries entries limit).length
      = min limit entries.length
    ∧ (entries = [] → DiaryStorage.get_recent_entries entries limit = []) := by
  refine ⟨?_, ?_, ?_⟩
  · have hsorted : (entries.mergeSort entryDescLe).Pairwise
        (fun a b => entryDescLe a b = true) :=
      List.sorted_mergeSort entryDescLe_trans entryDescLe_total entries
    have hperm : List.Perm (entries.mergeSort entryDescLe) entries :=
      List.mergeSort_perm entries entryDescLe
    have hkeys' : (entries.mergeSort entryDescLe).Pairwise
        (fun a b => a.1 ≠ b.1) :=
      hkeys.perm hperm.symm (fun h => Ne.symm h)
    have hstrict : (entries.mergeSort entryDescLe).Pairwise
        (fun a b => b.1 < a.1) := by
      refine List.Pairwise.imp ?_ (hsorted.and hkeys')
      intro a b h
      obtain ⟨hle, hne⟩ := h
      simp only [entryDescLe, decide_eq_true_eq] at hle
      rcases hle with hlt | ⟨heq, _⟩
      · exact hlt
      · exact absurd heq.symm hne
    exact List.Pairwise.take hstrict
  · simp [DiaryStorage.get_recent_entries]
  · intro h
    subst h
    simp [DiaryStorage.get_recent_entries]

theorem DiaryStorage.get_recent_entries_spec_witness :
    (DiaryStorage.get_recent_entries [("a", "x"), ("b", "y")] 1).Pairwise
      (fun a b => b.1 < a.1)
    ∧ (DiaryStorage.get_recent_entries [("a", "x"), ("b", "y")] 1).length
      = min 1 ([("a", "x"), ("b", "y")] : Entries).length
    ∧ (([("a", "x"), ("b", "y")] : Entries) = [] →
        DiaryStorage.get_recent_entries [("a", "x"), ("b", "y")] 1 = []) :=
  DiaryStorage.get_recent_entries_spec [("a", "x"), ("b", "y")] 1 (by decide)

/-- Terminal color code Colors.YELLOW. -/
def Colors.YELLOW : String := "\x1b[93m"

/-- Terminal color code Colors.RED. -/
def Colors.RED : String := "\x1b[91m"

/-- Terminal reset code Colors.END. -/
def Colors.END : String := "\x1b[0m"

/-- A single-quote character, used inside the failure message. -/
def squote : String := String.singleton (Char.ofNat 39)

/-- The fixed default model name, DEFAULT_MODEL. -/
def DEFAULT_MODEL : String := "llama3"

/-- Python `str.strip()` at character-list level: drop leading and trailing
whitespace. -/
def pyStrip (l : List Char) : List Char :=
  ((l.dropWhile Char.isWhitespace).reverse.dropWhile Char.isWhitespace).reverse

/-- Python `str.strip()` on a string. -/
def pyStripStr (s : String) : String := ⟨pyStrip s.data⟩

/-- Python `str.upper()`. -/
def pyUpper (l : List Char) : List Char := l.map Char.toUpper

/-- Python `str.lower()`. -/
def pyLower (l : List Char) : List Char := l.map Char.toLower

/-- The prompt template of analyze_sentiment with the entry text interpolated. -/
def sentimentPrompt (entry_text : String) : String :=
  "Analyze the sentiment of this journal entry and provide one short, supportive affirmation (2-3 sentences max).\n\nJournal Entry:\n"
    ++ entry_text
    ++ "\n\nProvide a warm, empathetic response that acknowledges the person"
    ++ squote ++ "s feelings."

/-- The warning analyze_sentiment returns when Ollama is unavailable. -/
def ollamaUnavailableMsg : String :=
  Colors.YELLOW ++ "⚠️  Ollama is not running. Please start Ollama and try again."
    ++ Colors.END

/-- The warning analyze_sentiment returns when the chat call raises, naming
the exception text and the configured model. -/
def ollamaFailureMsg (e model : String) : String :=
  Colors.RED ++ "⚠️  Analysis failed: " ++ e
    ++ "\n\nPlease ensure Ollama is running and the " ++ squote ++ model
    ++ squote ++ " model is installed." ++ Colors.END

/-- OllamaManager.analyze_sentiment.  `available` is the outcome of
check_availability (whether ollama.list() succeeds); `chat` is the external
blocking ollama.chat call on the built prompt, `Except.error e` modelling a
raised exception with text e and `Except.ok r` a response with content r.
Every path returns a string: no exception escapes. -/
def OllamaManager.analyze_sentiment (model : String) (available : Bool)
    (chat : String → Except String String) (entry_text : String) : String :=
  if !available then ollamaUnavailableMsg
  else
    match chat (sentimentPrompt entry_text) with
    | .error e => ollamaFailureMsg e model
    | .ok response => pyStripStr response

/-- C6: analyze_sentiment never propagates an exception (it is a total
function into String): when the service is unavailable it returns the
warning advising that Ollama be started; when the call fails it returns the
warning naming the failure and the configured model; on success it returns
the trimmed response text. -/
theorem OllamaManager.analyze_sentiment_spec (model : String) (available : Bool)
    (chat : String → Except String String) (entry_text : String) :
    (available = false →
      OllamaManager.analyze_sentiment model available chat entry_text
        = ollamaUnavailableMsg)
    ∧ (∀ e, available = true → chat (sentimentPrompt entry_text) = .error e →
      OllamaManager.analyze_sentiment model available chat entry_text
        = ollamaFailureMsg e model)
    ∧ (∀ r, available = true → chat (sentimentPrompt entry_text) = .ok r →
      OllamaManager.analyze_sentiment model available chat entry_text
        = pyStripStr r) := by
  refine ⟨?_, ?_, ?_⟩
  · intro h
    subst h
    rfl
  · intro e h hc
    subst h
    simp [OllamaManager.analyze_sentiment, hc]
  · intro r h hc
    subst h
    simp [OllamaManager.analyze_sentiment, hc]

theorem OllamaManager.analyze_sentiment_spec_witness :
    OllamaManager.analyze_sentiment DEFAULT_MODEL true (fun _ => .ok " fine ")
      ("today") = pyStripStr (" fine ") :=
  (OllamaManager.analyze_sentiment_spec DEFAULT_MODEL true (fun _ => .ok " fine ")
    ("today")).2.2 (" fine ") rfl rfl

/-- The sentinel test applied to each input line in write_entry:
`line.strip().upper() == 'END'`. -/
def isSentinel (line : List Char) : Bool :=
  decide (pyUpper (pyStrip line) = ("END").data)

/-- The line-capture loop of write_entry: lines come from standard input
(the list `input`); the loop stops at the first sentinel line, which is not
kept, or at EOFError (the end of the list). -/
def captureLines : List (List Char) → List (List Char)
  | [] => []
  | line :: rest => if isSentinel line then [] else line :: captureLines rest

/-- Python `'\n'.join(lines)`. -/
def joinLines : List (List Char) → List Char
  | [] => []
  | [l] => l
  | l :: rest => l ++ '\n' :: joinLines rest

/-- The blob built by write_entry: `'\n'.join(lines).strip()`. -/
def entryText (input : List (List Char)) : List Char :=
  pyStrip (joinLines (captureLines input))

/-- The capture loop as the claim words it: termination exactly on a line
equal, up to letter case, to the sentinel token, with no whitespace
stripping.  Stated only for comparison with `captureLines`, which follows
the source. -/
def captureLinesClaimed : List (List Char) → List (List Char)
  | [] => []
  | line :: rest =>
    if decide (pyUpper line = ("END").data) then [] else line :: captureLinesClaimed rest

/-- C7 counterexample: on the single input line " end " the code terminates
capture (the line is kept out of the entry), although that line is not
exactly equal, up to letter case, to the sentinel "END" — capture as the
claim words it would keep the line. -/
theorem captureLines_claim_counterexample :
    captureLines [(" end ").data] = []
    ∧ captureLinesClaimed [(" end ").data] = [(" end ").data]
    ∧ pyUpper ((" end ").data) ≠ ("END").data := by
  decide

/-- C7 (amended): capture terminates exactly at the first line whose
whitespace-stripped form equals the sentinel up to letter case, or when
input is exhausted; the lines read before that point are captured for the
joined blob and the terminating line is not included. -/
theorem captureLines_spec (pre : List (List Char))
    (hpre : ∀ l ∈ pre, isSentinel l = false) :
    captureLines pre = pre
    ∧ ∀ t post, isSentinel t = true →
      captureLines (pre ++ t :: post) = pre
      ∧ entryText (pre ++ t :: post) = pyStrip (joinLines pre) := by
  induction pre with
  | nil =>
    refine ⟨rfl, ?_⟩
    intro t post ht
    constructor
    · simp [captureLines, ht]
    · simp [entryText, captureLines, ht]
  | cons l rest ih =>
    have hl : isSentinel l = false := hpre l (List.mem_cons_self l rest)
    have ihr := ih (fun x hx => hpre x (List.mem_cons_of_mem l hx))
    constructor
    · simp [captureLines, hl, ihr.1]
    · intro t post ht
      have hrec := (ihr.2 t post ht).1
      constructor
      · simp [captureLines, hl, hrec]
      · simp [entryText, captureLines, hl, hrec, ihr.1]

theorem captureLines_spec_witness :
    captureLines ([("hello").data] ++ ("end").data :: [("after").data])
      = [("hello").data]
    ∧ entryText ([("hello").data] ++ ("end").data :: [("after").data])
      = pyStrip (joinLines [("hello").data]) :=
  (captureLines_spec [("hello").data] (by decide)).2 (("end").data)
    [("after").data] (by decide)

/-- Persistence-relevant outcome of the write_entry flow: abort with the
notice on empty text, discard when the save prompt is answered n, or invoke
storage.save_entry with the text. -/
inductive WriteResult where
  | abortedEmpty
  | discarded
  | saved (text : List Char)
deriving DecidableEq

/-- The write_entry flow after line capture: build
`entry_text = '\n'.join(lines).strip()`; if it is empty, print the notice
and return without saving; otherwise save unless the answer to the save
prompt, stripped and lowercased, is "n".  (The AI-analysis prompt between
the two steps does not touch the store.)  `saved t` is the only outcome in
which storage.save_entry is invoked. -/
def write_entry (input : List (List Char)) (saveChoice : List Char) :
    WriteResult :=
  let t := entryText input
  if t = [] then .abortedEmpty
  else if pyLower (pyStrip saveChoice) = ("n").data then .discarded
  else .saved t

theorem dropWhile_eq_nil_of_all {p : Char → Bool} (l : List Char)
    (h : ∀ c ∈ l, p c = true) : l.dropWhile p = [] := by
  induction l with
  | nil => rfl
  | cons c cs ih =>
    rw [List.dropWhile_cons_of_pos (h c (List.mem_cons_self c cs))]
    exact ih (fun x hx => h x (List.mem_cons_of_mem c hx))

theorem pyStrip_eq_nil_of_all_ws (l : List Char)
    (h : ∀ c ∈ l, c.isWhitespace = true) : pyStrip l = [] := by
  unfold pyStrip
  rw [dropWhile_eq_nil_of_all l h]
  rfl

theorem joinLines_all_ws (lines : List (List Char))
    (h : ∀ l ∈ lines, ∀ c ∈ l, c.isWhitespace = true) :
    ∀ c ∈ joinLines lines, c.isWhitespace = true := by
  induction lines with
  | nil => intro c hc; cases hc
  | cons l rest ih =>
    cases rest with
    | nil =>
      intro c hc
      exact h l (List.mem_cons_self l []) c hc
    | cons l2 rest2 =>
      intro c hc
      have hc2 : c ∈ l ++ '\n' :: joinLines (l2 :: rest2) := hc
      rcases List.mem_append.1 hc2 with hcl | hcr
      · exact h l (List.mem_cons_self l (l2 :: rest2)) c hcl
      · rcases List.mem_cons.1 hcr with hnl | hjoin
        · subst hnl; rfl
        · exact ih (fun x hx => h x (List.mem_cons_of_mem l hx)) c hjoin

/-- C8: when every captured line consists only of whitespace, the joined and
stripped entry text is empty, so the write flow aborts with the notice and
save_entry is not invoked, whatever is later answered at the prompts. -/
theorem write_entry_whitespace_aborts (input : List (List Char))
    (hws : ∀ l ∈ captureLines input, ∀ c ∈ l, c.isWhitespace = true) :
    entryText input = []
    ∧ ∀ saveChoice, write_entry input saveChoice = .abortedEmpty := by
  have hempty : entryText input = [] :=
    pyStrip_eq_nil_of_all_ws _ (joinLines_all_ws _ hws)
  refine ⟨hempty, fun saveChoice => ?_⟩
  simp [write_entry, hempty]

theorem write_entry_whitespace_aborts_witness :
    entryText [("   ").data, ("\t").data] = []
    ∧ ∀ saveChoice,
      write_entry [("   ").data, ("\t").data] saveChoice = .abortedEmpty :=
  write_entry_whitespace_aborts [("   ").data, ("\t").data] (by decide)
